import Mathlib

/-!
Verification of the face-inheritance algorithms of `h3_boundary_utils.py`.

The repository's core consists of four static mapping tables and four pure
functions (`trace_cell_to_ancestor_faces`, `trace_cell_to_parent_faces`,
`cell_to_coarsest_ancestor_on_faces`, `children_on_boundary_faces`) over an
external hierarchical grid service (the `h3` library).  Python dictionaries
are embedded as association lists that preserve the literal key order of the
source, Python sets of small integers as `Finset Nat` (or literal `List Nat`
inside the tables), and the `ValueError` raised on bad resolutions as an
`Except` error value.  The grid service itself is modelled concretely: a cell
is a base cell (hexagonal or pentagonal) together with the list of child
digits leading to it, which reproduces the grid facts the code relies on
(resolution = depth, one parent per level, 7 children per hexagon, 6 per
pentagon with the center digit chain making up the pentagon lineage).
-/

/-- A face number.  The code uses integers 1..6. -/
abbrev Face := Nat

/-- A child-face → parent-face dictionary, in literal source order. -/
abbrev FaceMap := List (Nat × Nat)

/-- A parent-face → set-of-child-faces dictionary, in literal source order. -/
abbrev RevMap := List (Nat × List Nat)

/-- Association-list lookup, the embedding of Python `d[k]` / `k in d`:
`lookupA k l = some v` exactly when `k` is a key of `l` with value `v`. -/
def lookupA {α : Type} (k : Nat) : List (Nat × α) → Option α
  | [] => none
  | (k₀, v) :: rest => if k = k₀ then some v else lookupA k rest

/-- `_boundary_face_mapping_hex`: child face ↦ parent face, keyed by
resolution parity (0 = even) then child position. -/
def boundary_face_mapping_hex : List (Nat × List (Nat × FaceMap)) :=
  [ (0, [ (0, []),
          (1, [(2, 3), (3, 1), (1, 1)]),
          (2, [(4, 6), (2, 2), (6, 2)]),
          (3, [(6, 2), (2, 3), (3, 3)]),
          (4, [(1, 5), (4, 4), (5, 4)]),
          (5, [(1, 5), (3, 1), (5, 5)]),
          (6, [(4, 6), (5, 4), (6, 6)]) ]),
    (1, [ (0, []),
          (1, [(3, 3), (1, 3), (5, 1)]),
          (2, [(2, 6), (6, 6), (3, 2)]),
          (3, [(2, 2), (1, 3), (3, 2)]),
          (4, [(4, 5), (5, 5), (6, 4)]),
          (5, [(1, 1), (4, 5), (5, 1)]),
          (6, [(4, 4), (2, 6), (6, 4)]) ]) ]

/-- `_reversed_boundary_face_mapping_hex`: parent face ↦ child faces. -/
def reversed_boundary_face_mapping_hex : List (Nat × List (Nat × RevMap)) :=
  [ (0, [ (1, [(1, [1, 3]), (3, [2])]),
          (2, [(2, [2, 6]), (6, [4])]),
          (3, [(2, [6]), (3, [2, 3])]),
          (4, [(4, [4, 5]), (5, [1])]),
          (5, [(5, [1, 5]), (1, [3])]),
          (6, [(4, [5]), (6, [4, 6])]),
          (0, []) ]),
    (1, [ (1, [(3, [1, 3]), (1, [5])]),
          (2, [(6, [2, 6]), (2, [3])]),
          (3, [(2, [2, 3]), (3, [1])]),
          (4, [(5, [4, 5]), (4, [6])]),
          (5, [(1, [1, 5]), (5, [4])]),
          (6, [(4, [4, 6]), (6, [2])]),
          (0, []) ]) ]

/-- `_boundary_face_mapping_pent`: child face ↦ parent face for a pentagonal
parent. -/
def boundary_face_mapping_pent : List (Nat × List (Nat × FaceMap)) :=
  [ (0, [ (0, []),
          (1, [(4, 5), (2, 1), (6, 1)]),
          (2, [(6, 1), (3, 2), (2, 2)]),
          (3, [(5, 2), (4, 2), (6, 4)]),
          (4, [(3, 2), (5, 4), (1, 2)]),
          (5, [(5, 3), (6, 5), (4, 5)]),
          (6, []) ]),
    (1, [ (0, []),
          (1, [(2, 5), (6, 5), (3, 1)]),
          (2, [(3, 1), (2, 1), (1, 2)]),
          (3, [(1, 4), (4, 3), (5, 3)]),
          (4, [(1, 2), (5, 2), (4, 4)]),
          (5, [(2, 5), (4, 3), (6, 3)]),
          (6, []) ]) ]

/-- `_reversed_boundary_face_mapping_pent`. -/
def reversed_boundary_face_mapping_pent : List (Nat × List (Nat × RevMap)) :=
  [ (0, [ (1, [(1, [2, 6]), (5, [4])]),
          (2, [(1, [6]), (2, [2, 3])]),
          (3, [(4, [1]), (3, [4, 5])]),
          (4, [(4, [5]), (2, [1, 3])]),
          (5, [(5, [4, 6]), (3, [5])]),
          (6, []),
          (0, []) ]),
    (1, [ (1, [(5, [2, 6]), (1, [3])]),
          (2, [(2, [1]), (1, [2, 3])]),
          (3, [(3, [6]), (4, [4, 5])]),
          (4, [(4, [4]), (2, [1, 5])]),
          (5, [(5, [2]), (3, [4, 6])]),
          (6, []),
          (0, []) ]) ]

/-- Model of the external H3 grid service (spec §6): a cell is a base cell,
which is hexagonal or pentagonal, together with the list of child digits
(0 = center) chosen at each subdivision step down to the cell. -/
structure Cell where
  basePent : Bool
  path : List (Fin 7)
deriving DecidableEq

/-- `h3.get_resolution`: the subdivision depth. -/
def Cell.res (c : Cell) : Nat := c.path.length

/-- `h3.is_pentagon`: a cell is a pentagon exactly when it descends from a
pentagonal base cell through center children only. -/
def Cell.isPentagon (c : Cell) : Bool :=
  c.basePent && c.path.all (fun d => d.val == 0)

/-- `h3.cell_to_parent` at resolution − 1: drop the last digit. -/
def Cell.parent (c : Cell) : Cell := ⟨c.basePent, c.path.dropLast⟩

/-- `h3.cell_to_child_pos` relative to the immediate parent: the last digit,
shifted down by one for non-center children of a pentagon (H3 pentagons skip
digit 1, so their children occupy positions 0..5). -/
def Cell.childPos (c : Cell) : Nat :=
  match c.path.getLast? with
  | none => 0
  | some d => if c.parent.isPentagon && d.val != 0 then d.val - 1 else d.val

/-- The seven child digits of a hexagonal cell. -/
def hexDigits : List (Fin 7) := [0, 1, 2, 3, 4, 5, 6]

/-- The six child digits of a pentagonal cell (digit 1 is skipped). -/
def pentDigits : List (Fin 7) := [0, 2, 3, 4, 5, 6]

/-- `h3.cell_to_children` at resolution + 1. -/
def Cell.children (c : Cell) : List Cell :=
  (if c.isPentagon then pentDigits else hexDigits).map
    (fun d => ⟨c.basePent, c.path ++ [d]⟩)

/-- Iterated `Cell.parent`. -/
def iterParent (c : Cell) : Nat → Cell
  | 0 => c
  | n + 1 => iterParent c.parent n

/-- The single error kind: Python's `ValueError` on a bad resolution. -/
inductive H3Err where
  | invalidResolution
deriving DecidableEq

instance exceptDecEq {ε α : Type} [DecidableEq ε] [DecidableEq α] :
    DecidableEq (Except ε α) := fun x y =>
  match x, y with
  | .ok a, .ok b =>
    if h : a = b then isTrue (by rw [h])
    else isFalse (fun hc => h (by injection hc))
  | .error a, .error b =>
    if h : a = b then isTrue (by rw [h])
    else isFalse (fun hc => h (by injection hc))
  | .ok _, .error _ => isFalse (fun hc => Except.noConfusion hc)
  | .error _, .ok _ => isFalse (fun hc => Except.noConfusion hc)

/-- The default face set `{1, 2, 3, 4, 5, 6}`. -/
def univFaces : Finset Face := {1, 2, 3, 4, 5, 6}

/-- The forward face map selected by
`(_boundary_face_mapping_pent if parent_is_pent else _boundary_face_mapping_hex)[parity].get(child_pos, {})`. -/
def faceMapAt (parentIsPent : Bool) (parity pos : Nat) : FaceMap :=
  (lookupA pos ((lookupA parity
      (if parentIsPent then boundary_face_mapping_pent
       else boundary_face_mapping_hex)).getD [])).getD []

/-- `{face_map[f] for f in input_faces if f in face_map}`. -/
def mapForward (fm : FaceMap) (faces : Finset Face) : Finset Face :=
  faces.biUnion (fun f =>
    match lookupA f fm with
    | some p => {p}
    | none => ∅)

/-- The `for res in range(h_res, res_parent, -1)` loop body of
`trace_cell_to_ancestor_faces`, with the number of remaining levels as fuel. -/
def traceLoop (h : Cell) (faces : Finset Face) : Nat → Finset Face
  | 0 => faces
  | n + 1 =>
    if h.isPentagon then ∅
    else if h.childPos = 0 then ∅
    else
      let mapped := mapForward (faceMapAt h.parent.isPentagon (h.res % 2) h.childPos) faces
      if mapped = ∅ then ∅ else traceLoop h.parent mapped n

/-- `trace_cell_to_ancestor_faces(h, input_faces, res_parent)`.  A `none`
third argument is Python's `res_parent=None` default (immediate parent). -/
def trace_cell_to_ancestor_faces (h : Cell) (input_faces : Finset Face)
    (res_parent : Option Int) : Except H3Err (Finset Face) :=
  let h_res : Int := h.res
  let rp : Int := res_parent.getD (h_res - 1)
  if h_res ≤ rp then .error .invalidResolution
  else if rp < 0 then .error .invalidResolution
  else if input_faces = ∅ then .ok ∅
  else .ok (traceLoop h input_faces (h_res - rp).toNat)

/-- `trace_cell_to_parent_faces(h, input_faces)`. -/
def trace_cell_to_parent_faces (h : Cell) (input_faces : Finset Face) :
    Except H3Err (Finset Face) :=
  trace_cell_to_ancestor_faces h input_faces (some ((h.res : Int) - 1))

/-- The `while res > 0` loop of `cell_to_coarsest_ancestor_on_faces`,
returning the final cell together with the face set carried at it.  The
one-level trace call is inlined in the form it provably takes when
`res > 0` (its resolution checks pass; see `trace_one_level_eq`). -/
def coarsestLoopPair (h : Cell) (faces : Finset Face) : Nat → Cell × Finset Face
  | 0 => (h, faces)
  | n + 1 =>
    let b := if faces = ∅ then ∅ else traceLoop h faces 1
    if b = ∅ then (h, faces) else coarsestLoopPair h.parent b n

/-- `cell_to_coarsest_ancestor_on_faces(h, input_faces)`. -/
def cell_to_coarsest_ancestor_on_faces (h : Cell) (input_faces : Finset Face) : Cell :=
  (coarsestLoopPair h input_faces h.res).1

/-- The reverse map selected by `reverse_mapping[child_pos]` in
`children_on_boundary_faces`.  The Python access is an unguarded dictionary
lookup; the embedding defaults to the empty map, and `rev_pos_lookup_total`
shows the default branch is unreachable for positions 0..6. -/
def revMapAt (isPent : Bool) (parity pos : Nat) : RevMap :=
  (lookupA pos ((lookupA parity
      (if isPent then reversed_boundary_face_mapping_pent
       else reversed_boundary_face_mapping_hex)).getD [])).getD []

/-- The `mapped_faces` accumulation of `children_on_boundary_faces`:
union of `reverse_mapping[child_pos][parent_face]` over the faces present. -/
def mapReverse (rm : RevMap) (faces : Finset Face) : Finset Face :=
  faces.biUnion (fun pf =>
    match lookupA pf rm with
    | some s => s.toFinset
    | none => ∅)

/-- The inner recursion `_children_by_face(current, res, faces)`, with the
remaining descent depth `target_res - res` as fuel. -/
def children_by_face (current : Cell) (faces : Finset Face) : Nat → List Cell
  | 0 => [current]
  | n + 1 =>
    current.children.flatMap (fun child =>
      let mapped := mapReverse
        (revMapAt current.isPentagon ((current.res + 1) % 2) child.childPos) faces
      if mapped = ∅ then [] else children_by_face child mapped n)

/-- `children_on_boundary_faces(parent, target_res, input_faces)`. -/
def children_on_boundary_faces (parent : Cell) (target_res : Int)
    (input_faces : Finset Face) : Except H3Err (List Cell) :=
  if target_res < (parent.res : Int) then .error .invalidResolution
  else .ok (children_by_face parent input_faces (target_res - parent.res).toNat)

lemma lookupA_mem {α : Type} {k : Nat} {v : α} :
    ∀ {l : List (Nat × α)}, lookupA k l = some v → (k, v) ∈ l := by
  intro l
  induction l with
  | nil => intro h; simp [lookupA] at h
  | cons hd tl ih =>
    intro h
    rcases hd with ⟨k₀, v₀⟩
    by_cases hk : k = k₀
    · subst hk
      simp only [lookupA, if_true, reduceIte, Option.some.injEq] at h
      rw [← h]
      exact List.mem_cons_self _ _
    · simp only [lookupA, if_neg hk] at h
      exact List.mem_cons_of_mem _ (ih h)

lemma Cell.parent_res (c : Cell) : c.parent.res = c.res - 1 := by
  simp [Cell.parent, Cell.res]

lemma Cell.parent_basePent (c : Cell) : c.parent.basePent = c.basePent := rfl

lemma Cell.parent_mk_append (bp : Bool) (p : List (Fin 7)) (d : Fin 7) :
    (Cell.mk bp (p ++ [d])).parent = ⟨bp, p⟩ := by
  simp [Cell.parent]

lemma Cell.res_mk_append (bp : Bool) (p : List (Fin 7)) (d : Fin 7) :
    (Cell.mk bp (p ++ [d])).res = p.length + 1 := by
  simp [Cell.res]

lemma Cell.childPos_mk_append (bp : Bool) (p : List (Fin 7)) (d : Fin 7) :
    (Cell.mk bp (p ++ [d])).childPos =
      if (Cell.mk bp p).isPentagon && d.val != 0 then d.val - 1 else d.val := by
  simp [Cell.childPos, Cell.parent_mk_append, List.getLast?_concat]

lemma Cell.isPentagon_of_basePent_false {c : Cell} (h : c.basePent = false) :
    c.isPentagon = false := by
  simp [Cell.isPentagon, h]

lemma iterParent_basePent (n : Nat) : ∀ c : Cell, (iterParent c n).basePent = c.basePent := by
  induction n with
  | zero => intro c; rfl
  | succ m ih => intro c; simp [iterParent, ih c.parent, Cell.parent_basePent]

lemma iterParent_res (n : Nat) : ∀ c : Cell, n ≤ c.res → (iterParent c n).res = c.res - n := by
  induction n with
  | zero => intro c _; rfl
  | succ m ih =>
    intro c hn
    have h1 : c.parent.res = c.res - 1 := c.parent_res
    have h2 : m ≤ c.parent.res := by omega
    have := ih c.parent h2
    simp only [iterParent, this, h1]
    omega

lemma iterParent_mk_append (bp : Bool) (p : List (Fin 7)) :
    ∀ t : List (Fin 7), iterParent ⟨bp, p ++ t⟩ t.length = ⟨bp, p⟩ := by
  intro t
  induction t using List.reverseRecOn with
  | nil => simp [iterParent]
  | append_singleton t d ih =>
    have h1 : p ++ (t ++ [d]) = (p ++ t) ++ [d] := by simp
    have h2 : (t ++ [d]).length = t.length + 1 := by simp
    rw [h1, h2]
    show iterParent (Cell.mk bp ((p ++ t) ++ [d])).parent t.length = ⟨bp, p⟩
    rw [Cell.parent_mk_append]
    exact ih

lemma mapForward_empty (fm : FaceMap) : mapForward fm ∅ = ∅ := by
  simp [mapForward]

lemma mem_mapForward {fm : FaceMap} {faces : Finset Face} {f pf : Face}
    (hf : f ∈ faces) (hl : lookupA f fm = some pf) : pf ∈ mapForward fm faces := by
  rw [mapForward, Finset.mem_biUnion]
  exact ⟨f, hf, by simp [hl]⟩

lemma traceLoop_empty : ∀ (m : Nat) (h : Cell), traceLoop h ∅ m = ∅ := by
  intro m
  induction m with
  | zero => intro h; rfl
  | succ n ih =>
    intro h
    simp [traceLoop, mapForward_empty, ih]

lemma traceLoop_add : ∀ (n m : Nat) (h : Cell) (S : Finset Face),
    traceLoop h S (n + m) = traceLoop (iterParent h n) (traceLoop h S n) m := by
  intro n
  induction n with
  | zero => intro m h S; simp [iterParent, traceLoop, Nat.zero_add]
  | succ k ih =>
    intro m h S
    have hadd : k + 1 + m = (k + m) + 1 := by omega
    rw [hadd]
    by_cases hp : h.isPentagon
    · simp [traceLoop, hp, iterParent, traceLoop_empty]
    · by_cases hc : h.childPos = 0
      · simp [traceLoop, hp, hc, iterParent, traceLoop_empty]
      · by_cases hm : mapForward (faceMapAt h.parent.isPentagon (h.res % 2) h.childPos) S = ∅
        · simp [traceLoop, hp, hc, hm, iterParent, traceLoop_empty]
        · have l1 : traceLoop h S ((k + m) + 1)
              = traceLoop h.parent (mapForward (faceMapAt h.parent.isPentagon (h.res % 2) h.childPos) S) (k + m) := by
            simp [traceLoop, hp, hc, hm]
          have l2 : traceLoop h S (k + 1)
              = traceLoop h.parent (mapForward (faceMapAt h.parent.isPentagon (h.res % 2) h.childPos) S) k := by
            simp [traceLoop, hp, hc, hm]
          rw [l1, l2]
          show traceLoop h.parent _ (k + m)
              = traceLoop (iterParent h.parent k) (traceLoop h.parent _ k) m
          exact ih m h.parent _

lemma mem_children_by_face : ∀ (k : Nat) (cur : Cell) (faces : Finset Face) (c : Cell),
    c ∈ children_by_face cur faces k →
    c.basePent = cur.basePent ∧ ∃ t : List (Fin 7), t.length = k ∧ c.path = cur.path ++ t := by
  intro k
  induction k with
  | zero =>
    intro cur faces c hc
    simp only [children_by_face, List.mem_singleton] at hc
    subst hc
    exact ⟨rfl, [], rfl, by simp⟩
  | succ n ih =>
    intro cur faces c hc
    simp only [children_by_face, List.mem_flatMap] at hc
    obtain ⟨child, hchild, hcmem⟩ := hc
    by_cases hm : mapReverse (revMapAt cur.isPentagon ((cur.res + 1) % 2) child.childPos) faces = ∅
    · rw [if_pos hm] at hcmem
      simp at hcmem
    · rw [if_neg hm] at hcmem
      obtain ⟨hbp, t, ht, hpath⟩ := ih child _ c hcmem
      simp only [Cell.children, List.mem_map] at hchild
      obtain ⟨d, _, hd⟩ := hchild
      refine ⟨by rw [hbp, ← hd], d :: t, by simp [ht], ?_⟩
      rw [hpath, ← hd]
      simp

lemma Cell.eta (c : Cell) : Cell.mk c.basePent c.path = c := rfl

/-- The hexagon inverse table is consistent with the hexagon forward table
and only mentions faces 1..6: checked entry by entry. -/
lemma hex_tables_dec : ∀ x ∈ reversed_boundary_face_mapping_hex, ∀ y ∈ x.2, ∀ z ∈ y.2,
    z.1 < 7 ∧ ∀ cf ∈ z.2, (1 ≤ cf ∧ cf < 7) ∧ lookupA cf (faceMapAt false x.1 y.1) = some z.1 := by
  decide

lemma hex_rev_consistent {par pos pf : Nat} {s : List Nat} {cf : Nat}
    (hs : lookupA pf (revMapAt false par pos) = some s) (hcf : cf ∈ s) :
    (1 ≤ cf ∧ cf < 7) ∧ lookupA cf (faceMapAt false par pos) = some pf := by
  have hrw : revMapAt false par pos
      = (lookupA pos ((lookupA par reversed_boundary_face_mapping_hex).getD [])).getD [] := by
    simp [revMapAt]
  rw [hrw] at hs
  cases h1 : lookupA par reversed_boundary_face_mapping_hex with
  | none => rw [h1] at hs; simp [lookupA] at hs
  | some pt =>
    rw [h1] at hs
    simp only [Option.getD_some] at hs
    cases h2 : lookupA pos pt with
    | none => rw [h2] at hs; simp [lookupA] at hs
    | some rm =>
      rw [h2] at hs
      simp only [Option.getD_some] at hs
      have hx := lookupA_mem h1
      have hy := lookupA_mem h2
      have hz := lookupA_mem hs
      have hmain := hex_tables_dec (par, pt) hx (pos, rm) hy (pf, s) hz
      exact hmain.2 cf hcf

lemma mem_mapReverse {rm : RevMap} {faces : Finset Face} {cf : Face}
    (h : cf ∈ mapReverse rm faces) : ∃ pf ∈ faces, ∃ s, lookupA pf rm = some s ∧ cf ∈ s := by
  rw [mapReverse, Finset.mem_biUnion] at h
  obtain ⟨pf, hpf, hmem⟩ := h
  cases hl : lookupA pf rm with
  | none => rw [hl] at hmem; simp at hmem
  | some s =>
    rw [hl] at hmem
    exact ⟨pf, hpf, s, hl, by simpa using hmem⟩

lemma revMapAt_hex_zero : ∀ par < 2, revMapAt false par 0 = [] := by decide

lemma mapReverse_nil (faces : Finset Face) : mapReverse [] faces = ∅ := by
  ext a
  simp [mapReverse, lookupA]

lemma mem_univFaces {cf : Nat} (h1 : 1 ≤ cf) (h2 : cf < 7) : cf ∈ univFaces := by
  simp only [univFaces, Finset.mem_insert, Finset.mem_singleton]
  omega

lemma children_by_face_succ_elim {cur : Cell} {faces : Finset Face} {m : Nat} {c : Cell}
    (hbp : cur.basePent = false)
    (hc : c ∈ children_by_face cur faces (m + 1)) :
    ∃ d : Fin 7, d.val ≠ 0 ∧
      mapReverse (revMapAt false ((cur.res + 1) % 2) d.val) faces ≠ ∅ ∧
      c ∈ children_by_face ⟨cur.basePent, cur.path ++ [d]⟩
            (mapReverse (revMapAt false ((cur.res + 1) % 2) d.val) faces) m := by
  have hpent : cur.isPentagon = false := Cell.isPentagon_of_basePent_false hbp
  simp only [children_by_face, List.mem_flatMap] at hc
  obtain ⟨child, hchild, hcm⟩ := hc
  simp only [Cell.children, hpent, Bool.false_eq_true, if_false, List.mem_map] at hchild
  obtain ⟨d, _, hd⟩ := hchild
  have hpos : child.childPos = d.val := by
    rw [← hd, Cell.childPos_mk_append]
    simp [Cell.isPentagon, hbp]
  rw [hpent, hpos] at hcm
  by_cases hm : mapReverse (revMapAt false ((cur.res + 1) % 2) d.val) faces = ∅
  · rw [if_pos hm] at hcm
    simp at hcm
  · rw [if_neg hm] at hcm
    have hd0 : d.val ≠ 0 := by
      intro h0
      apply hm
      rw [h0, revMapAt_hex_zero ((cur.res + 1) % 2) (Nat.mod_lt _ (by omega)), mapReverse_nil]
    exact ⟨d, hd0, hm, by rw [hd]; exact hcm⟩

lemma traceLoop_one_step {cur : Cell} {d : Fin 7} (hbp : cur.basePent = false)
    (hd : d.val ≠ 0) {T : Finset Face} {cf pf : Nat}
    (hcf : cf ∈ T) (hl : lookupA cf (faceMapAt false ((cur.res + 1) % 2) d.val) = some pf) :
    pf ∈ traceLoop ⟨cur.basePent, cur.path ++ [d]⟩ T 1 := by
  have hpentc : (Cell.mk cur.basePent (cur.path ++ [d])).isPentagon = false :=
    Cell.isPentagon_of_basePent_false hbp
  have hpent : cur.isPentagon = false := Cell.isPentagon_of_basePent_false hbp
  have hpos : (Cell.mk cur.basePent (cur.path ++ [d])).childPos = d.val := by
    rw [Cell.childPos_mk_append]
    simp [Cell.isPentagon, hbp]
  have hpar : (Cell.mk cur.basePent (cur.path ++ [d])).parent = cur := by
    rw [Cell.parent_mk_append, Cell.eta]
  have hres : (Cell.mk cur.basePent (cur.path ++ [d])).res % 2 = (cur.res + 1) % 2 := by
    simp [Cell.res]
  have hmem : pf ∈ mapForward (faceMapAt false ((cur.res + 1) % 2) d.val) T :=
    mem_mapForward hcf hl
  have hne : mapForward (faceMapAt false ((cur.res + 1) % 2) d.val) T ≠ ∅ := by
    intro h
    rw [h] at hmem
    simp at hmem
  simp only [traceLoop, hpentc, hpos, hpar, hpent, hres, Bool.false_eq_true, if_false, hd,
    if_neg hne]
  simpa [hd] using hmem

lemma roundtrip_main : ∀ (k : Nat) (cur : Cell) (faces : Finset Face) (c : Cell),
    cur.basePent = false → c ∈ children_by_face cur faces (k + 1) →
    ((traceLoop c univFaces (k + 1)) ∩ faces).Nonempty := by
  intro k
  induction k with
  | zero =>
    intro cur faces c hbp hc
    obtain ⟨d, hd0, hm, hcm⟩ := children_by_face_succ_elim hbp hc
    simp only [children_by_face, List.mem_singleton] at hcm
    subst hcm
    obtain ⟨cf, hcfm⟩ := Finset.nonempty_iff_ne_empty.mpr hm
    obtain ⟨pf, hpf, s, hls, hcfs⟩ := mem_mapReverse hcfm
    obtain ⟨⟨hcf1, hcf7⟩, hfwd⟩ := hex_rev_consistent hls hcfs
    refine ⟨pf, Finset.mem_inter.mpr ⟨?_, hpf⟩⟩
    exact traceLoop_one_step hbp hd0 (mem_univFaces hcf1 hcf7) hfwd
  | succ n ih =>
    intro cur faces c hbp hc
    obtain ⟨d, hd0, hm, hcm⟩ := children_by_face_succ_elim hbp hc
    have hbp' : (Cell.mk cur.basePent (cur.path ++ [d])).basePent = false := hbp
    have hne := ih _ _ c hbp' hcm
    obtain ⟨cf, hcfT⟩ := hne
    rw [Finset.mem_inter] at hcfT
    obtain ⟨hcfT, hcfm⟩ := hcfT
    obtain ⟨pf, hpf, s, hls, hcfs⟩ := mem_mapReverse hcfm
    obtain ⟨⟨hcf1, hcf7⟩, hfwd⟩ := hex_rev_consistent hls hcfs
    obtain ⟨hcbp, t, htlen, htpath⟩ := mem_children_by_face _ _ _ _ hcm
    have hiter : iterParent c (n + 1) = Cell.mk cur.basePent (cur.path ++ [d]) := by
      have : c = Cell.mk c.basePent c.path := rfl
      rw [← Cell.eta c, htpath, ← htlen]
      have hcb : c.basePent = cur.basePent := hcbp
      rw [hcb]
      exact iterParent_mk_append cur.basePent (cur.path ++ [d]) t
    have hsplit : traceLoop c univFaces (n + 1 + 1)
        = traceLoop (Cell.mk cur.basePent (cur.path ++ [d])) (traceLoop c univFaces (n + 1)) 1 := by
      rw [traceLoop_add (n + 1) 1 c univFaces, hiter]
    refine ⟨pf, Finset.mem_inter.mpr ⟨?_, hpf⟩⟩
    rw [hsplit]
    exact traceLoop_one_step hbp hd0 hcfT hfwd

lemma trace_eval {c : Cell} (F : Finset Face) {t : Nat} (ht : t < c.res) :
    trace_cell_to_ancestor_faces c F (some (t : Int))
      = if F = ∅ then .ok ∅ else .ok (traceLoop c F (c.res - t)) := by
  have h1 : ¬ ((c.res : Int) ≤ (t : Int)) := by exact_mod_cast Nat.not_le.mpr ht
  have h2 : ¬ ((t : Int) < 0) := by omega
  have h3 : ((c.res : Int) - (t : Int)).toNat = c.res - t := by omega
  simp only [trace_cell_to_ancestor_faces, Option.getD_some, if_neg h1, if_neg h2, h3]

lemma trace_one_level_eq (h : Cell) (faces : Finset Face) (hres : 0 < h.res) :
    trace_cell_to_ancestor_faces h faces (some ((h.res : Int) - 1))
      = .ok (if faces = ∅ then ∅ else traceLoop h faces 1) := by
  have ht : h.res - 1 < h.res := by omega
  have hcast : ((h.res : Int) - 1) = ((h.res - 1 : Nat) : Int) := by omega
  rw [hcast, trace_eval faces ht]
  have : h.res - (h.res - 1) = 1 := by omega
  rw [this]
  split <;> rfl

/-- C1: the pentagon tables violate the forward/inverse consistency invariant.
At shape = pentagon, parity 0, child position 3, the forward table maps child
face 5 to parent face 2, but the inverse table has no entry for parent face 2
at all; conversely the inverse table lists child face 1 under parent face 4,
while the forward table maps child face 1 to nothing.  (The inverse entry at
even parity, position 3 is in fact the inverse of the ODD-parity forward
entry, and the odd-parity inverse entry matches neither forward table.) -/
theorem C1_pent_pos3_inconsistent :
    lookupA 5 (faceMapAt true 0 3) = some 2 ∧
    lookupA 2 (revMapAt true 0 3) = none ∧
    lookupA 4 (revMapAt true 0 3) = some [1] ∧
    lookupA 1 (faceMapAt true 0 3) = none ∧
    lookupA 4 (faceMapAt true 1 3) = some 3 ∧
    lookupA 3 (revMapAt true 1 3) = some [6] ∧
    lookupA 6 (faceMapAt true 1 3) = none := by
  decide

/-- C3 counterexample: tracing a cell to its own resolution (zero levels of
ascent) does not return the input face set unchanged — the call is rejected
with the resolution error. -/
theorem C3_counterexample :
    trace_cell_to_ancestor_faces ⟨false, [1]⟩ {1} (some 1) = .error .invalidResolution ∧
    trace_cell_to_ancestor_faces ⟨false, [1]⟩ {1} (some 1) ≠ .ok {1} := by
  decide

/-- C3 (amended): for every cell `c` and face set `F`, calling trace with the
target ancestor resolution equal to `c`'s own resolution raises
InvalidResolution (the zero-level call is rejected, not the identity). -/
theorem C3_trace_same_resolution_errors (c : Cell) (F : Finset Face) :
    trace_cell_to_ancestor_faces c F (some (c.res : Int)) = .error .invalidResolution := by
  simp [trace_cell_to_ancestor_faces]

/-- C4: the InvalidResolution error is raised exactly when the resolution
arguments violate the ordering constraints: for tracing when the target
ancestor resolution (defaulting to one below the cell's resolution) is ≥ the
cell's resolution or < 0, and for expansion when the target resolution is
below the parent's resolution; in all other cases no error is raised.  Both
operations are pure, so the error is the entire observable effect: an
erroneous call performs no traversal. -/
theorem C4_invalid_resolution_iff :
    (∀ (c : Cell) (F : Finset Face) (rp : Option Int),
        trace_cell_to_ancestor_faces c F rp = .error .invalidResolution
          ↔ ((c.res : Int) ≤ rp.getD ((c.res : Int) - 1) ∨ rp.getD ((c.res : Int) - 1) < 0)) ∧
    (∀ (p : Cell) (t : Int) (F : Finset Face),
        children_on_boundary_faces p t F = .error .invalidResolution ↔ t < (p.res : Int)) := by
  constructor
  · intro c F rp
    simp only [trace_cell_to_ancestor_faces]
    split_ifs with h1 h2 h3 <;> simp_all
  · intro p t F
    simp only [children_on_boundary_faces]
    split_ifs with h <;> simp_all

/-- C8 counterexample: child position 0 does appear as a key in the mapping
tables — here in the even-parity hexagon forward table. -/
theorem C8_counterexample :
    (lookupA 0 ((lookupA 0 boundary_face_mapping_hex).getD [])).isSome = true := by
  decide

/-- C8 (amended): position 0 (the center child) is present as a key in every
mapping table — forward and inverse, hexagon and pentagon, both parities —
but it is always bound to the empty mapping, so a center child contributes no
boundary faces. -/
theorem C8_center_child_empty_mapping :
    (lookupA 0 ((lookupA 0 boundary_face_mapping_hex).getD []) = some [] ∧
     lookupA 0 ((lookupA 1 boundary_face_mapping_hex).getD []) = some [] ∧
     lookupA 0 ((lookupA 0 boundary_face_mapping_pent).getD []) = some [] ∧
     lookupA 0 ((lookupA 1 boundary_face_mapping_pent).getD []) = some []) ∧
    (lookupA 0 ((lookupA 0 reversed_boundary_face_mapping_hex).getD []) = some [] ∧
     lookupA 0 ((lookupA 1 reversed_boundary_face_mapping_hex).getD []) = some [] ∧
     lookupA 0 ((lookupA 0 reversed_boundary_face_mapping_pent).getD []) = some [] ∧
     lookupA 0 ((lookupA 1 reversed_boundary_face_mapping_pent).getD []) = some []) := by
  decide

/-- C9: expansion to the parent's own resolution returns exactly `[parent]`,
for every face set including the empty one — the base case fires before any
face-set inspection. -/
theorem C9_expand_equal_resolution (p : Cell) (F : Finset Face) :
    children_on_boundary_faces p (p.res : Int) F = .ok [p] := by
  simp [children_on_boundary_faces, children_by_face]

/-- C10: the unguarded inverse-table position lookups in the expansion
recursion never fail: for both shapes, both parities and every child position
0 through 6, the inverse table has an entry (possibly the empty mapping). -/
theorem C10_reverse_lookup_total :
    ∀ par < 2, ∀ pos < 7,
      (lookupA pos ((lookupA par reversed_boundary_face_mapping_hex).getD [])).isSome = true ∧
      (lookupA pos ((lookupA par reversed_boundary_face_mapping_pent).getD [])).isSome = true := by
  decide

/-- Witness for C10: instantiated at parity 1, position 6. -/
theorem C10_reverse_lookup_total_witness :
    1 < 2 ∧ 6 < 7 ∧
      ((lookupA 6 ((lookupA 1 reversed_boundary_face_mapping_hex).getD [])).isSome = true ∧
       (lookupA 6 ((lookupA 1 reversed_boundary_face_mapping_pent).getD [])).isSome = true) :=
  ⟨by decide, by decide, C10_reverse_lookup_total 1 (by decide) 6 (by decide)⟩

/-- C2 counterexample: a resolution-6 non-pentagon cell with child position 3
exists for which tracing one level up with faces {2,3} yields {3} (not {2}),
and with faces {5,6} yields {2} (not the empty set): the code selects the
mapping table by the child's resolution parity (6, even), not by the parent
resolution's parity. -/
theorem C2_counterexample :
    (Cell.mk false [0, 0, 0, 0, 0, 3]).res = 6 ∧
    (Cell.mk false [0, 0, 0, 0, 0, 3]).isPentagon = false ∧
    (Cell.mk false [0, 0, 0, 0, 0, 3]).childPos = 3 ∧
    trace_cell_to_ancestor_faces ⟨false, [0, 0, 0, 0, 0, 3]⟩ {2, 3} (some 5) = .ok {3} ∧
    trace_cell_to_ancestor_faces ⟨false, [0, 0, 0, 0, 0, 3]⟩ {2, 3} (some 5) ≠ .ok {2} ∧
    trace_cell_to_ancestor_faces ⟨false, [0, 0, 0, 0, 0, 3]⟩ {5, 6} (some 5) = .ok {2} ∧
    trace_cell_to_ancestor_faces ⟨false, [0, 0, 0, 0, 0, 3]⟩ {5, 6} (some 5) ≠ .ok ∅ := by
  decide

/-- C2 (amended): parity is the child's resolution mod 2, so the odd-parity
position-3 table `{2:2, 1:3, 3:2}` governs a resolution-5 (odd) non-pentagon
cell with a non-pentagon parent and child position 3: tracing one level up,
candidate faces {2,3} yield exactly {2}, and candidate faces {5,6} (absent
from the mapping keys) yield the empty set. -/
theorem C2_trace_res5_pos3 (c : Cell) (hres : c.res = 5) (hpent : c.isPentagon = false)
    (hppent : c.parent.isPentagon = false) (hpos : c.childPos = 3) :
    trace_cell_to_ancestor_faces c {2, 3} (some 4) = .ok {2} ∧
    trace_cell_to_ancestor_faces c {5, 6} (some 4) = .ok ∅ := by
  have ht : 4 < c.res := by omega
  have hloop : ∀ F : Finset Face, traceLoop c F 1 = mapForward (faceMapAt false 1 3) F := by
    intro F
    simp only [traceLoop, hpent, hpos, hppent, hres, Bool.false_eq_true, if_false]
    norm_num
    intro h
    exact h.symm
  have e1 := trace_eval (c := c) {2, 3} (t := 4) ht
  have e2 := trace_eval (c := c) {5, 6} (t := 4) ht
  rw [hres] at e1 e2
  norm_num at e1 e2
  constructor
  · rw [e1, hloop]
    decide
  · rw [e2, hloop]
    decide

/-- Witness for C2 (amended): the resolution-5 hexagon-lineage cell with
digit path [0,0,0,0,3]. -/
theorem C2_trace_res5_pos3_witness :
    (Cell.mk false [0, 0, 0, 0, 3]).res = 5 ∧
    (Cell.mk false [0, 0, 0, 0, 3]).isPentagon = false ∧
    (Cell.mk false [0, 0, 0, 0, 3]).parent.isPentagon = false ∧
    (Cell.mk false [0, 0, 0, 0, 3]).childPos = 3 ∧
    (trace_cell_to_ancestor_faces ⟨false, [0, 0, 0, 0, 3]⟩ {2, 3} (some 4) = .ok {2} ∧
     trace_cell_to_ancestor_faces ⟨false, [0, 0, 0, 0, 3]⟩ {5, 6} (some 4) = .ok ∅) :=
  ⟨by decide, by decide, by decide, by decide,
    C2_trace_res5_pos3 ⟨false, [0, 0, 0, 0, 3]⟩ (by decide) (by decide) (by decide) (by decide)⟩

/-- C5 counterexample: expanding the resolution-0 hexagon root by one level
on face set {3} returns the children at digits 1 and 3, but tracing the
digit-1 child back up (with the default full candidate set) yields {1,3},
which is not a subset of {3}. -/
theorem C5_counterexample :
    children_on_boundary_faces ⟨false, []⟩ 1 {3} = .ok [⟨false, [1]⟩, ⟨false, [3]⟩] ∧
    trace_cell_to_ancestor_faces ⟨false, [1]⟩ univFaces (some 0) = .ok {1, 3} ∧
    ¬ (({1, 3} : Finset Face) ⊆ {3}) := by
  refine ⟨by decide, by decide, by decide⟩

/-- C5 (amended): in a pentagon-free hierarchy, every cell returned by
expanding a parent `p` at resolution `R` down `k ≥ 1` levels on face set `F`,
when traced back up `k` levels with the default full candidate set, yields a
face set sharing at least one face with `F` (hence non-empty).  The stated
subset relation does not hold (see the counterexample), and under pentagon
parents even this weaker relation fails, because of the inverse-table
inconsistency at position 3 recorded for C1. -/
theorem C5_expand_trace_roundtrip (p : Cell) (F : Finset Face) (k : Nat) (l : List Cell)
    (c : Cell) (hp : p.basePent = false) (hk : 1 ≤ k)
    (hl : children_on_boundary_faces p ((p.res + k : Nat) : Int) F = .ok l) (hc : c ∈ l) :
    ∃ G : Finset Face,
      trace_cell_to_ancestor_faces c univFaces (some (p.res : Int)) = .ok G ∧
      (G ∩ F).Nonempty := by
  have hnot : ¬ (((p.res + k : Nat) : Int) < (p.res : Int)) := by push_cast; omega
  rw [children_on_boundary_faces, if_neg hnot] at hl
  have hfuel : (((p.res + k : Nat) : Int) - (p.res : Int)).toNat = k := by push_cast; omega
  rw [hfuel] at hl
  injection hl with hl
  subst hl
  obtain ⟨k', rfl⟩ : ∃ k', k = k' + 1 := ⟨k - 1, by omega⟩
  have hmain := roundtrip_main k' p F c hp hc
  obtain ⟨hcbp, t, htlen, htpath⟩ := mem_children_by_face _ _ _ _ hc
  have hcres : c.res = p.res + (k' + 1) := by
    rw [Cell.res, htpath, List.length_append, htlen]
    rfl
  have huniv : univFaces ≠ ∅ := by decide
  rw [trace_eval univFaces (show p.res < c.res by omega), if_neg huniv]
  refine ⟨traceLoop c univFaces (c.res - p.res), rfl, ?_⟩
  rw [show c.res - p.res = k' + 1 by omega]
  exact hmain

/-- Witness for C5 (amended): the hexagon root expanded one level on {3};
the digit-1 child traces to {1,3}, which meets {3}. -/
theorem C5_expand_trace_roundtrip_witness :
    (Cell.mk false []).basePent = false ∧ 1 ≤ 1 ∧
    children_on_boundary_faces ⟨false, []⟩ (((Cell.mk false []).res + 1 : Nat) : Int) {3}
      = .ok [⟨false, [1]⟩, ⟨false, [3]⟩] ∧
    (⟨false, [1]⟩ : Cell) ∈ [(⟨false, [1]⟩ : Cell), ⟨false, [3]⟩] ∧
    (∃ G : Finset Face,
      trace_cell_to_ancestor_faces ⟨false, [1]⟩ univFaces (some ((Cell.mk false []).res : Int))
        = .ok G ∧ (G ∩ ({3} : Finset Face)).Nonempty) :=
  ⟨rfl, by decide, by decide, by decide,
    C5_expand_trace_roundtrip ⟨false, []⟩ {3} 1 [⟨false, [1]⟩, ⟨false, [3]⟩] ⟨false, [1]⟩
      rfl (by decide) (by decide) (by decide)⟩

/-- C6: tracing past an intermediate valid target factors through it — the
deeper result is obtained by feeding the shallower result into a further
trace from the intermediate ancestor — and once a trace result is empty it is
empty for every strictly coarser target. -/
theorem C6_trace_composition (c : Cell) (F : Finset Face) (t1 t2 : Nat)
    (h2 : t2 < t1) (h1 : t1 < c.res) :
    trace_cell_to_ancestor_faces c F (some (t2 : Int))
      = (trace_cell_to_ancestor_faces c F (some (t1 : Int))).bind
          (fun G => trace_cell_to_ancestor_faces (iterParent c (c.res - t1)) G (some (t2 : Int))) ∧
    (trace_cell_to_ancestor_faces c F (some (t1 : Int)) = .ok ∅ →
      trace_cell_to_ancestor_faces c F (some (t2 : Int)) = .ok ∅) := by
  have ht2 : t2 < c.res := by omega
  have hanc : (iterParent c (c.res - t1)).res = t1 := by
    rw [iterParent_res (c.res - t1) c (by omega)]
    omega
  have ht2' : t2 < (iterParent c (c.res - t1)).res := by omega
  have e2 := trace_eval (c := c) F ht2
  have e1 := trace_eval (c := c) F (t := t1) h1
  by_cases hF : F = ∅
  · rw [e2, if_pos hF, e1, if_pos hF]
    have := trace_eval (c := iterParent c (c.res - t1)) (∅ : Finset Face) ht2'
    rw [if_pos rfl] at this
    constructor
    · rw [Except.bind, this]
    · intro _
      rfl
  · rw [e2, if_neg hF, e1, if_neg hF]
    have eanc := trace_eval (c := iterParent c (c.res - t1)) (traceLoop c F (c.res - t1)) ht2'
    rw [hanc] at eanc
    have hsplit : traceLoop c F (c.res - t2)
        = traceLoop (iterParent c (c.res - t1)) (traceLoop c F (c.res - t1)) (t1 - t2) := by
      rw [show c.res - t2 = (c.res - t1) + (t1 - t2) by omega]
      exact traceLoop_add (c.res - t1) (t1 - t2) c F
    by_cases hG : traceLoop c F (c.res - t1) = ∅
    · rw [if_pos hG] at eanc
      constructor
      · rw [Except.bind, eanc, hsplit, hG, traceLoop_empty]
      · intro _
        rw [hsplit, hG, traceLoop_empty]
    · rw [if_neg hG] at eanc
      constructor
      · rw [Except.bind, eanc, hsplit]
      · intro hok
        injection hok with hok
        exact absurd hok hG

/-- Witness for C6: a resolution-2 hexagon-lineage cell traced to targets
1 and 0. -/
theorem C6_trace_composition_witness :
    (trace_cell_to_ancestor_faces ⟨false, [1, 1]⟩ {1} (some ((0 : Nat) : Int))
      = (trace_cell_to_ancestor_faces ⟨false, [1, 1]⟩ {1} (some ((1 : Nat) : Int))).bind
          (fun G => trace_cell_to_ancestor_faces
            (iterParent ⟨false, [1, 1]⟩ ((Cell.mk false [1, 1]).res - 1)) G
            (some ((0 : Nat) : Int)))) ∧
    (trace_cell_to_ancestor_faces ⟨false, [1, 1]⟩ {1} (some ((1 : Nat) : Int)) = .ok ∅ →
      trace_cell_to_ancestor_faces ⟨false, [1, 1]⟩ {1} (some ((0 : Nat) : Int)) = .ok ∅) :=
  C6_trace_composition ⟨false, [1, 1]⟩ {1} 1 0 (by decide) (by decide)

lemma coarsest_fix : ∀ (fuel : Nat) (h : Cell) (faces : Finset Face), h.res = fuel →
    cell_to_coarsest_ancestor_on_faces (coarsestLoopPair h faces fuel).1
        (coarsestLoopPair h faces fuel).2
      = (coarsestLoopPair h faces fuel).1 := by
  intro fuel
  induction fuel with
  | zero =>
    intro h faces hres
    simp only [coarsestLoopPair, cell_to_coarsest_ancestor_on_faces, hres]
  | succ n ih =>
    intro h faces hres
    by_cases hb : (if faces = ∅ then (∅ : Finset Face) else traceLoop h faces 1) = ∅
    · have hpair : coarsestLoopPair h faces (n + 1) = (h, faces) := by
        simp only [coarsestLoopPair]
        rw [if_pos hb]
      rw [hpair]
      show cell_to_coarsest_ancestor_on_faces h faces = h
      unfold cell_to_coarsest_ancestor_on_faces
      rw [hres, hpair]
    · have hpair : coarsestLoopPair h faces (n + 1)
          = coarsestLoopPair h.parent (if faces = ∅ then ∅ else traceLoop h faces 1) n := by
        simp only [coarsestLoopPair]
        rw [if_neg hb]
      rw [hpair]
      exact ih h.parent _ (by simp [Cell.parent_res, hres])

lemma coarsest_trace : ∀ (fuel : Nat) (h : Cell) (faces : Finset Face), h.res = fuel →
    ((coarsestLoopPair h faces fuel).1 = h ∧ (coarsestLoopPair h faces fuel).2 = faces) ∨
    ((coarsestLoopPair h faces fuel).1.res < h.res ∧
      trace_cell_to_ancestor_faces h faces (some ((coarsestLoopPair h faces fuel).1.res : Int))
        = .ok (coarsestLoopPair h faces fuel).2) := by
  intro fuel
  induction fuel with
  | zero =>
    intro h faces _
    exact Or.inl ⟨rfl, rfl⟩
  | succ n ih =>
    intro h faces hres
    by_cases hb : (if faces = ∅ then (∅ : Finset Face) else traceLoop h faces 1) = ∅
    · have hpair : coarsestLoopPair h faces (n + 1) = (h, faces) := by
        simp only [coarsestLoopPair]
        rw [if_pos hb]
      rw [hpair]
      exact Or.inl ⟨rfl, rfl⟩
    · have hfne : faces ≠ ∅ := fun h0 => hb (by rw [if_pos h0])
      rw [if_neg hfne] at hb
      have hpair : coarsestLoopPair h faces (n + 1)
          = coarsestLoopPair h.parent (traceLoop h faces 1) n := by
        simp only [coarsestLoopPair]
        rw [if_neg hfne, if_neg hb]
      rw [hpair]
      have hpres : h.parent.res = n := by simp [Cell.parent_res, hres]
      rcases ih h.parent (traceLoop h faces 1) hpres with ⟨hfst, hsnd⟩ | ⟨hlt, htr⟩
      · refine Or.inr ⟨?_, ?_⟩
        · rw [hfst, hpres, hres]
          omega
        · rw [hfst, hsnd, hpres]
          have e0 := trace_eval (c := h) faces (t := n) (by omega)
          rw [if_neg hfne, show h.res - n = 1 by omega] at e0
          exact e0
      · refine Or.inr ⟨?_, ?_⟩
        · rw [hres]
          omega
        · set P := coarsestLoopPair h.parent (traceLoop h faces 1) n with hP
          have hPlt : P.1.res < n := by rw [← hpres]; exact hlt
          have e1 := trace_eval (c := h) faces (t := P.1.res) (by omega)
          rw [if_neg hfne] at e1
          have e2 := trace_eval (c := h.parent) (traceLoop h faces 1) (t := P.1.res)
            (by omega)
          rw [if_neg hb, hpres] at e2
          rw [e2] at htr
          injection htr with htr
          rw [e1, show h.res - P.1.res = 1 + (n - P.1.res) by omega,
            traceLoop_add 1 (n - P.1.res) h faces]
          show Except.ok (traceLoop h.parent (traceLoop h faces 1) (n - P.1.res)) = _
          rw [htr]

/-- C7: `cell_to_coarsest_ancestor_on_faces` is idempotent: if `a` is the
coarsest ancestor of `c` for face set `F`, and `G` is the face set carried at
`a` (namely `F` itself when `a = c`, and otherwise the result of tracing
`c`'s faces up to `a`'s resolution), then the coarsest ancestor of `a` for
`G` is `a` itself. -/
theorem C7_coarsest_ancestor_idempotent (c : Cell) (F : Finset Face) (a : Cell)
    (G : Finset Face) (ha : a = cell_to_coarsest_ancestor_on_faces c F)
    (hG : (a = c ∧ G = F) ∨
          (a ≠ c ∧ trace_cell_to_ancestor_faces c F (some (a.res : Int)) = .ok G)) :
    cell_to_coarsest_ancestor_on_faces a G = a := by
  have hfix := coarsest_fix c.res c F rfl
  have htr := coarsest_trace c.res c F rfl
  have hdef : cell_to_coarsest_ancestor_on_faces c F = (coarsestLoopPair c F c.res).1 := rfl
  have hG2 : G = (coarsestLoopPair c F c.res).2 := by
    rcases htr with ⟨h1, h2⟩ | ⟨h1, h2⟩
    · rcases hG with ⟨_, hGF⟩ | ⟨hne, _⟩
      · rw [hGF, h2]
      · exact absurd (by rw [ha, hdef, h1]) hne
    · rcases hG with ⟨heq, _⟩ | ⟨_, htrace⟩
      · have hc1 : (coarsestLoopPair c F c.res).1 = c := by rw [← hdef, ← ha, heq]
        rw [hc1] at h1
        exact absurd h1 (lt_irrefl _)
      · rw [ha, hdef] at htrace
        exact Except.ok.inj (htrace.symm.trans h2)
  rw [ha, hdef, hG2]
  exact hfix

/-- Witness for C7: the resolution-1 cell at digit 1 with faces {1}; its
coarsest ancestor is the root, carrying traced faces {3}. -/
theorem C7_coarsest_ancestor_idempotent_witness :
    ((Cell.mk false [] : Cell) = cell_to_coarsest_ancestor_on_faces ⟨false, [1]⟩ {1}) ∧
    ((Cell.mk false [] : Cell) ≠ ⟨false, [1]⟩ ∧
      trace_cell_to_ancestor_faces ⟨false, [1]⟩ {1}
        (some ((Cell.mk false [] : Cell).res : Int)) = .ok {3}) ∧
    cell_to_coarsest_ancestor_on_faces ⟨false, []⟩ {3} = ⟨false, []⟩ :=
  ⟨by decide, ⟨by decide, by decide⟩,
    C7_coarsest_ancestor_idempotent ⟨false, [1]⟩ {1} ⟨false, []⟩ {3} (by decide)
      (Or.inr ⟨by decide, by decide⟩)⟩
